import Mathlib

/-!
Shallow embedding of the XML-to-structure converter (`xml_parser.py`,
`xml_element_parsers.py`): the element tree, Python-dict values, the default
recursive fold with strategy dispatch, cursor navigation and flat path
extraction.
-/

/-- An XML element: tag, optional NAME attribute, optional text, ordered
children.  `eid` models Python object identity (each ElementTree node is a
distinct object; `==` on elements is identity). -/
inductive Element where
  | mk (eid : Nat) (tag : String) (nm : Option String) (txt : Option String)
       (children : List Element)

def Element.eid : Element → Nat
  | .mk i _ _ _ _ => i

def Element.tag : Element → String
  | .mk _ t _ _ _ => t

def Element.name : Element → Option String
  | .mk _ _ n _ _ => n

def Element.text : Element → Option String
  | .mk _ _ _ x _ => x

def Element.children : Element → List Element
  | .mk _ _ _ _ cs => cs

/-- A Python dict key as used by this program: a string or `None`. -/
inductive Key where
  | kstr (s : String)
  | knone
deriving DecidableEq

/-- A Python value as produced by this program: `None`, a string, a dict
(association list in insertion order), or a list. -/
inductive Value where
  | vnone
  | vstr (s : String)
  | vdict (entries : List (Key × Value))
  | vlist (entries : List Value)

def keyOfOpt : Option String → Key
  | some s => .kstr s
  | none => .knone

def keyToValue : Key → Value
  | .kstr s => .vstr s
  | .knone => .vnone

def textValue : Option String → Value
  | some s => .vstr s
  | none => .vnone

/-- Python dict assignment `d[k] = v`: replace in place if the key exists,
else append (insertion order preserved). -/
def dictInsert : List (Key × Value) → Key → Value → List (Key × Value)
  | [], k, v => [(k, v)]
  | (k0, v0) :: rest, k, v =>
    if k0 = k then (k, v) :: rest else (k0, v0) :: dictInsert rest k v

/-- Build a dict by assigning each pair in order (last write wins). -/
def mkDict (pairs : List (Key × Value)) : List (Key × Value) :=
  pairs.foldl (fun acc kv => dictInsert acc kv.1 kv.2) []

/-- Python `list(d.items())[0]`: the first item of a dict value; fails
(`none`) when the value is not a dict or the dict is empty. -/
def firstItem : Value → Option (Key × Value)
  | .vdict (kv :: _) => some kv
  | _ => none

/-- The record `{'name': name, 'data': data}` built in the collision branch. -/
def mkNameData (kv : Key × Value) : Value :=
  .vdict [(.kstr "name", keyToValue kv.1), (.kstr "data", kv.2)]

/-- `len(child_element_tags) != len(set(child_element_tags))`. -/
def hasCollision (tags : List String) : Bool :=
  tags.length != tags.dedup.length

/-- A parsing strategy: `recursive_parse(element)` of a strategy object. -/
def Strategy := Element → Value

/-- The `parsing_strategies` mapping from tag to strategy. -/
def Strategies := String → Option Strategy

mutual

/-- `XMLParser.recursive_parse`: dispatch to a registered strategy for the
element's tag, else the default fold (list of `{name, data}` records when
child tags collide, dict of the children's single key-value pairs
otherwise), keyed by NAME attribute if present else tag.  The extraction
`list(child_info.items())[0]` fails when a child's result is not a
non-empty dict, hence the `Except`. -/
def recursiveParse (strats : Strategies) : Element → Except String Value
  | .mk i tag nm tx children =>
    match strats tag with
    | some st => .ok (st (.mk i tag nm tx children))
    | none =>
      match parseChildren strats children with
      | .error msg => .error msg
      | .ok pairs =>
        if hasCollision (children.map Element.tag) then
          .ok (.vdict [(Key.kstr (nm.getD tag), .vlist (pairs.map mkNameData))])
        else
          .ok (.vdict [(Key.kstr (nm.getD tag), .vdict (mkDict pairs))])

/-- The child loop shared by both default-fold branches: fold each child
recursively and extract its single (key, value) pair, in document order. -/
def parseChildren (strats : Strategies) : List Element → Except String (List (Key × Value))
  | [] => .ok []
  | c :: cs =>
    match recursiveParse strats c with
    | .error msg => .error msg
    | .ok childInfo =>
      match firstItem childInfo with
      | none => .error "child fold result has no first item"
      | some kv =>
        match parseChildren strats cs with
        | .error msg => .error msg
        | .ok rest => .ok (kv :: rest)

end

/-- `XMLParser.parse`: fold the document root. -/
def parse (strats : Strategies) (root : Element) : Except String Value :=
  recursiveParse strats root

/-- `AttributeParsingStrategy.recursive_parse`: one level deep, dict of each
child's NAME attribute (possibly `None`) to its text, keyed by the element's
tag. -/
def attributeParsingStrategy : Strategy :=
  fun e =>
    .vdict [(.kstr e.tag,
      .vdict (e.children.foldl
        (fun acc c => dictInsert acc (keyOfOpt c.name) (textValue c.text)) []))]

/-- An empty strategy registry. -/
def emptyStrats : Strategies := fun _ => none

/-- The mutable converter state: the parsed root (immutable), the cursor
element, the navigation path stack (`current_path`, initialised to
`[root.tag]`), and the flat-extraction dict `data`. -/
structure ParserState where
  root : Element
  current : Element
  path : List String
  data : List (Key × Value)

/-- `XMLParser.__init__` after the file parse: cursor at the root. -/
def initState (root : Element) : ParserState :=
  { root := root, current := root, path := [root.tag], data := [] }

/-- `get_current_info`: (tag, NAME attribute, text) of the cursor element. -/
def getCurrentInfo (st : ParserState) : String × Option String × Option String :=
  (st.current.tag, st.current.name, st.current.text)

/-- `get_current_path`: slash-joined path stack. -/
def getCurrentPath (st : ParserState) : String :=
  String.intercalate "/" st.path

/-- Index of the last occurrence of a character in a list. -/
def lastIdxOf (cs : List Char) (c : Char) : Option Nat :=
  ((cs.enum.filter (fun p => p.2 == c)).map Prod.fst).getLast?

/-- Python `re.match(r'(.*)\[(.*)]', s)` with greedy groups: the tag is
everything before the last opening bracket that still has a closing bracket
after it, the name runs to the last closing bracket; `none` when the pattern
does not match. -/
def splitSpec (s : String) : Option (String × String) :=
  let cs := s.toList
  match lastIdxOf cs ']' with
  | none => none
  | some j =>
    match lastIdxOf (cs.take j) '[' with
    | none => none
    | some i =>
      some (String.mk (cs.take i), String.mk ((cs.drop (i + 1)).take (j - i - 1)))

/-- Python list indexing `l[i]` with negative-index semantics; `none` models
an IndexError. -/
def pyGet (l : List α) (i : Int) : Option α :=
  if 0 ≤ i then l.get? i.toNat
  else if 0 ≤ i + l.length then l.get? (i + l.length).toNat
  else none

/-- `children_with_info` in `go_to_child`: the direct children of the cursor
matching the spec (tag and NAME when the spec is bracketed, else tag). -/
def childMatches (st : ParserState) (spec : String) : List Element :=
  match splitSpec spec with
  | some (tag, nm) =>
    st.current.children.filter (fun c => c.tag == tag && c.name == some nm)
  | none => st.current.children.filter (fun c => c.tag == spec)

/-- `XMLParser.go_to_child`: on success move the cursor to the chosen match
and append the spec to the path stack; on failure (guard fails, or negative
index past the front) raise with the state untouched. -/
def goToChild (st : ParserState) (spec : String) (occ : Int) :
    Option String × ParserState :=
  let ms := childMatches st spec
  if occ < (ms.length : Int) then
    match pyGet ms occ with
    | some c => (none, { st with current := c, path := st.path ++ [spec] })
    | none => (some "IndexError: list index out of range", st)
  else
    (some "No child at given occurrence found.", st)

mutual

/-- `root.iter()`: the element followed by its descendants, document order. -/
def preorder : Element → List Element
  | .mk i t n x cs => .mk i t n x cs :: preorderList cs

def preorderList : List Element → List Element
  | [] => []
  | c :: cs => preorder c ++ preorderList cs

end

/-- `XMLParser.go_to_parent`: error at the root; otherwise scan the whole
tree in document order for the first element whose direct children contain
the cursor (Python `in` is object identity, modelled by `eid`), move there
and pop the path stack; if no parent is found Python returns silently. -/
def goToParent (st : ParserState) : Option String × ParserState :=
  if st.current.eid == st.root.eid then
    (some "Already at root, cannot go to parent.", st)
  else
    match (preorder st.root).find?
        (fun p => p.children.any (fun c => c.eid == st.current.eid)) with
    | some p => (none, { st with current := p, path := st.path.dropLast })
    | none => (none, st)

/-- The segment loop of `add_to_data`: a bracketed segment is resolved by a
linear scan for the first child matching tag and NAME, a bare segment by
`find` (first child with the tag); any miss aborts with an error. -/
def resolveSegs : Element → List String → Except String Element
  | e, [] => .ok e
  | e, s :: rest =>
    match splitSpec s with
    | some (tag, nm) =>
      match e.children.find? (fun c => c.tag == tag && c.name == some nm) with
      | some c => resolveSegs c rest
      | none => .error "Element not found in path."
    | none =>
      match e.children.find? (fun c => c.tag == s) with
      | some c => resolveSegs c rest
      | none => .error "Element not found in path."

/-- Accumulator loop for splitting a character list on a separator. -/
def splitOnCharAux (sep : Char) : List Char → List Char → List String
  | [], acc => [String.mk acc.reverse]
  | c :: cs, acc =>
    if c == sep then String.mk acc.reverse :: splitOnCharAux sep cs []
    else splitOnCharAux sep cs (c :: acc)

/-- Python `s.split(sep)` for a one-character separator (as in
`path.split('/')`): empty string gives one empty field, a leading separator
gives a leading empty field. -/
def pySplit (s : String) (sep : Char) : List String :=
  splitOnCharAux sep s.toList []

/-- `XMLParser.add_to_data`: split the path on slashes, drop the first
segment, resolve from the root, then store the resolved element's text under
the given key, else under its NAME attribute (possibly `None`). -/
def addToData (st : ParserState) (path : String) (key : Option String) :
    Option String × ParserState :=
  let segs := (pySplit path '/').drop 1
  match resolveSegs st.root segs with
  | .error msg => (some msg, st)
  | .ok e =>
    let k := match key with
      | some s => Key.kstr s
      | none => keyOfOpt e.name
    (none, { st with data := dictInsert st.data k (textValue e.text) })

/-- The element reached from `e` by following a list of child indices. -/
def subAt : Element → List Nat → Option Element
  | e, [] => some e
  | e, k :: ks =>
    match e.children.get? k with
    | some c => subAt c ks
    | none => none

/-- All object identities in a tree, document order. -/
def idsOf (e : Element) : List Nat := (preorder e).map Element.eid

/-- A well-formed converter state: element identities are distinct (true of
any Python object tree) and the cursor is a node of the tree. -/
def WF (st : ParserState) : Prop :=
  (idsOf st.root).Nodup ∧ ∃ p, subAt st.root p = some st.current

/-! Concrete documents used by the scenarios. -/

/-- `<ITEM NAME="a">1</ITEM>`. -/
def itemA : Element := .mk 1 "ITEM" (some "a") (some "1") []

/-- `<ITEM NAME="b">2</ITEM>`. -/
def itemB : Element := .mk 2 "ITEM" (some "b") (some "2") []

/-- `<ROOT><ITEM NAME="a">1</ITEM><ITEM NAME="b">2</ITEM></ROOT>`. -/
def doc1 : Element := .mk 0 "ROOT" none none [itemA, itemB]

/-- `<X NAME="p">1</X>`. -/
def leafP : Element := .mk 1 "X" (some "p") (some "1") []

/-- `<Y NAME="q">2</Y>`. -/
def leafQ : Element := .mk 2 "Y" (some "q") (some "2") []

/-- `<ROOT><X NAME="p">1</X><Y NAME="q">2</Y></ROOT>`. -/
def doc2 : Element := .mk 0 "ROOT" none none [leafP, leafQ]

/-- The registry of `main.py`: the attribute strategy on tag ATTRIBUTES. -/
def attrStrats : Strategies :=
  fun t => if t == "ATTRIBUTES" then some attributeParsingStrategy else none

/-- A document mixing a strategy-handled element and default-folded ones. -/
def mixedDoc : Element :=
  .mk 10 "PPLX" none none
    [.mk 11 "ATTRIBUTES" none none [.mk 12 "P" (some "k") (some "v") []],
     .mk 13 "OTHER" (some "o") none []]

/-! Helper lemmas. -/

theorem hasCollision_eq_false_iff (l : List String) :
    hasCollision l = false ↔ l.Nodup := by
  unfold hasCollision
  simp only [bne_eq_false_iff_eq]
  constructor
  · intro h
    have hs : l.dedup.Sublist l := List.dedup_sublist l
    have : l.dedup = l := hs.eq_of_length h.symm
    simpa [this] using (this ▸ List.nodup_dedup l)
  · intro h
    rw [h.dedup]

theorem parseChildren_ok (strats : Strategies) :
    ∀ (cs : List Element) (pairs : List (Key × Value)),
      parseChildren strats cs = .ok pairs →
      pairs.length = cs.length ∧
      ∀ k c, cs.get? k = some c →
        ∃ cv, recursiveParse strats c = .ok cv ∧ firstItem cv = pairs.get? k := by
  intro cs
  induction cs with
  | nil =>
    intro pairs h
    simp only [parseChildren] at h
    cases h
    exact ⟨rfl, by intro k c hk; simp at hk⟩
  | cons c0 cs ih =>
    intro pairs h
    simp only [parseChildren] at h
    cases hP : recursiveParse strats c0 with
    | error msg => rw [hP] at h; cases h
    | ok childInfo =>
      rw [hP] at h; dsimp only at h
      cases hF : firstItem childInfo with
      | none => rw [hF] at h; cases h
      | some kv =>
        rw [hF] at h; dsimp only at h
        cases hR : parseChildren strats cs with
        | error msg => rw [hR] at h; cases h
        | ok rest =>
          rw [hR] at h; dsimp only at h
          cases h
          obtain ⟨hlen, hidx⟩ := ih rest hR
          refine ⟨by simp [hlen], ?_⟩
          intro k c hk
          cases k with
          | zero =>
            simp only [List.get?] at hk
            cases hk
            exact ⟨childInfo, hP, by simp [hF, List.get?]⟩
          | succ k =>
            simp only [List.get?] at hk ⊢
            exact hidx k c hk

theorem parseChildren_total (strats : Strategies) (cs : List Element)
    (h : ∀ c ∈ cs, ∃ k w, recursiveParse strats c = .ok (.vdict [(k, w)])) :
    ∃ pairs, parseChildren strats cs = .ok pairs := by
  induction cs with
  | nil => exact ⟨[], rfl⟩
  | cons c0 cs ih =>
    obtain ⟨k, w, hc⟩ := h c0 (by simp)
    obtain ⟨rest, hrest⟩ := ih (fun c hm => h c (by simp [hm]))
    exact ⟨(k, w) :: rest, by simp [parseChildren, hc, firstItem, hrest]⟩

theorem mem_preorder_self (e : Element) : e ∈ preorder e := by
  cases e
  simp [preorder]

theorem mem_preorderList {x : Element} :
    ∀ {cs : List Element}, x ∈ preorderList cs ↔ ∃ c ∈ cs, x ∈ preorder c := by
  intro cs
  induction cs with
  | nil => simp [preorderList]
  | cons c cs ih => simp [preorderList, List.mem_append, ih]

theorem subAt_mem : ∀ (p : List Nat) (r a : Element),
    subAt r p = some a → a ∈ preorder r := by
  intro p
  induction p with
  | nil =>
    intro r a h
    simp [subAt] at h
    subst h
    exact mem_preorder_self r
  | cons k ks ih =>
    intro r a h
    cases r with
    | mk i t n x cs =>
      simp only [subAt, Element.children] at h
      cases hg : cs.get? k with
      | none => rw [hg] at h; cases h
      | some c =>
        rw [hg] at h; dsimp only at h
        have hm : a ∈ preorder c := ih c a h
        have hc : c ∈ cs := List.get?_mem hg
        have : a ∈ preorderList cs := mem_preorderList.2 ⟨c, hc, hm⟩
        simp [preorder, this]

theorem mem_subAt_bounded :
    ∀ (n : Nat) (r a : Element), sizeOf r ≤ n → a ∈ preorder r →
      ∃ p, subAt r p = some a := by
  intro n
  induction n with
  | zero =>
    intro r a hr
    cases r with
    | mk i t nm x cs => simp only [Element.mk.sizeOf_spec] at hr; omega
  | succ n ih =>
    intro r a hr h
    cases r with
    | mk i t nm x cs =>
      simp only [preorder] at h
      rcases List.mem_cons.1 h with he | hl
      · exact ⟨[], by simp [subAt, he]⟩
      · obtain ⟨c, hc, hm⟩ := mem_preorderList.1 hl
        have hlt : sizeOf c < sizeOf (Element.mk i t nm x cs) := by
          have := List.sizeOf_lt_of_mem hc
          simp only [Element.mk.sizeOf_spec]
          omega
        obtain ⟨p, hp⟩ := ih c a (by omega) hm
        obtain ⟨k, hk⟩ := List.get?_of_mem hc
        refine ⟨k :: p, ?_⟩
        simp only [subAt, Element.children]
        rw [hk]
        exact hp

theorem mem_subAt (r a : Element) (h : a ∈ preorder r) :
    ∃ p, subAt r p = some a :=
  mem_subAt_bounded (sizeOf r) r a le_rfl h

theorem preorderList_map_eid :
    ∀ cs : List Element,
      (preorderList cs).map Element.eid = (cs.map idsOf).flatten := by
  intro cs
  induction cs with
  | nil => simp [preorderList]
  | cons c cs ih => simp [preorderList, idsOf, ih]

theorem idsOf_cons (i : Nat) (t : String) (n x : Option String)
    (cs : List Element) :
    idsOf (.mk i t n x cs) = i :: (cs.map idsOf).flatten := by
  simp [idsOf, preorder, Element.eid, preorderList_map_eid]

theorem subAt_eid_mem {r a : Element} {p : List Nat}
    (h : subAt r p = some a) : a.eid ∈ idsOf r :=
  List.mem_map_of_mem Element.eid (subAt_mem p r a h)

theorem subAt_inj :
    ∀ (p1 : List Nat) (r : Element) (p2 : List Nat) (a b : Element),
      (idsOf r).Nodup → subAt r p1 = some a → subAt r p2 = some b →
      a.eid = b.eid → p1 = p2 ∧ a = b := by
  intro p1
  induction p1 with
  | nil =>
    intro r p2 a b hn h1 h2 heq
    simp only [subAt] at h1
    cases h1
    cases p2 with
    | nil =>
      simp only [subAt] at h2
      cases h2
      exact ⟨rfl, rfl⟩
    | cons k2 ks2 =>
      exfalso
      cases r with
      | mk i t nm x cs =>
        simp only [subAt, Element.children] at h2
        cases hg2 : cs.get? k2 with
        | none => rw [hg2] at h2; cases h2
        | some c2 =>
          rw [hg2] at h2; dsimp only at h2
          have hb : b.eid ∈ idsOf c2 := subAt_eid_mem h2
          have hc2 : c2 ∈ cs := List.get?_mem hg2
          have hmem : b.eid ∈ (cs.map idsOf).flatten :=
            List.mem_flatten.2 ⟨idsOf c2, List.mem_map_of_mem idsOf hc2, hb⟩
          rw [idsOf_cons] at hn
          have hi := (List.nodup_cons.1 hn).1
          have hib : i = b.eid := heq
          exact hi (by rw [hib]; exact hmem)
  | cons k1 ks1 ih =>
    intro r p2 a b hn h1 h2 heq
    cases r with
    | mk i t nm x cs =>
      simp only [subAt, Element.children] at h1
      cases hg1 : cs.get? k1 with
      | none => rw [hg1] at h1; cases h1
      | some c1 =>
        rw [hg1] at h1; dsimp only at h1
        cases p2 with
        | nil =>
          exfalso
          simp only [subAt] at h2
          cases h2
          have ha : a.eid ∈ idsOf c1 := subAt_eid_mem h1
          have hc1 : c1 ∈ cs := List.get?_mem hg1
          have hmem : a.eid ∈ (cs.map idsOf).flatten :=
            List.mem_flatten.2 ⟨idsOf c1, List.mem_map_of_mem idsOf hc1, ha⟩
          rw [idsOf_cons] at hn
          have hi := (List.nodup_cons.1 hn).1
          have hib : i = a.eid := heq.symm
          exact hi (by rw [hib]; exact hmem)
        | cons k2 ks2 =>
          simp only [subAt, Element.children] at h2
          cases hg2 : cs.get? k2 with
          | none => rw [hg2] at h2; cases h2
          | some c2 =>
            rw [hg2] at h2; dsimp only at h2
            rw [idsOf_cons] at hn
            have hnf : ((cs.map idsOf).flatten).Nodup := (List.nodup_cons.1 hn).2
            obtain ⟨hall, hpair⟩ := List.nodup_flatten.1 hnf
            by_cases hk : k1 = k2
            · subst hk
              rw [hg1] at hg2
              injection hg2 with hcc
              subst hcc
              have hnc : (idsOf c1).Nodup :=
                hall (idsOf c1) (List.mem_map_of_mem idsOf (List.get?_mem hg1))
              obtain ⟨hps, hab⟩ := ih c1 ks2 a b hnc h1 h2 heq
              exact ⟨by rw [hps], hab⟩
            · exfalso
              have ha : a.eid ∈ idsOf c1 := subAt_eid_mem h1
              have hb : b.eid ∈ idsOf c2 := subAt_eid_mem h2
              obtain ⟨hk1, hget1⟩ := List.get?_eq_some.1 hg1
              obtain ⟨hk2, hget2⟩ := List.get?_eq_some.1 hg2
              have hk1m : k1 < (cs.map idsOf).length := by simpa using hk1
              have hk2m : k2 < (cs.map idsOf).length := by simpa using hk2
              have e1 : (cs.map idsOf).get ⟨k1, hk1m⟩ = idsOf c1 := by
                simp only [List.get_eq_getElem, List.getElem_map]
                rw [← hget1]
                simp [List.get_eq_getElem]
              have e2 : (cs.map idsOf).get ⟨k2, hk2m⟩ = idsOf c2 := by
                simp only [List.get_eq_getElem, List.getElem_map]
                rw [← hget2]
                simp [List.get_eq_getElem]
              rcases Nat.lt_or_ge k1 k2 with hlt | hge
              · have hd := List.pairwise_iff_get.1 hpair ⟨k1, hk1m⟩ ⟨k2, hk2m⟩ hlt
                rw [e1, e2] at hd
                exact hd ha (by rw [← heq] at hb; exact hb)
              · have hlt2 : k2 < k1 := Nat.lt_of_le_of_ne hge (Ne.symm hk)
                have hd := List.pairwise_iff_get.1 hpair ⟨k2, hk2m⟩ ⟨k1, hk1m⟩ hlt2
                rw [e1, e2] at hd
                exact hd hb (by rw [heq] at ha; exact ha)

theorem subAt_append :
    ∀ (p : List Nat) (r : Element) (k : Nat),
      subAt r (p ++ [k]) =
        (subAt r p).bind fun e => (Element.children e).get? k := by
  intro p
  induction p with
  | nil =>
    intro r k
    simp only [List.nil_append, subAt, Option.some_bind]
    cases hg : (Element.children r).get? k with
    | none => rfl
    | some c => rfl
  | cons k0 ks ih =>
    intro r k
    simp only [List.cons_append, subAt]
    cases hg : (Element.children r).get? k0 with
    | none => rfl
    | some c => exact ih c k

theorem pyGet_mem {α : Type} {l : List α} {i : Int} {x : α}
    (h : pyGet l i = some x) : x ∈ l := by
  unfold pyGet at h
  split_ifs at h
  · exact List.get?_mem h
  · exact List.get?_mem h

theorem childMatches_subset (st : ParserState) (spec : String) :
    ∀ c ∈ childMatches st spec, c ∈ st.current.children := by
  intro c hc
  unfold childMatches at hc
  cases hsp : splitSpec spec with
  | none => rw [hsp] at hc; exact (List.mem_filter.1 hc).1
  | some tn =>
    rw [hsp] at hc
    cases tn with
    | mk tg nm => exact (List.mem_filter.1 hc).1

theorem goToChild_ok {st st' : ParserState} {spec : String} {occ : Int}
    (h : goToChild st spec occ = (none, st')) :
    ∃ c, pyGet (childMatches st spec) occ = some c ∧
      st' = { st with current := c, path := st.path ++ [spec] } := by
  unfold goToChild at h
  by_cases hlt : occ < ((childMatches st spec).length : Int)
  · rw [if_pos hlt] at h
    cases hg : pyGet (childMatches st spec) occ with
    | none => rw [hg] at h; cases h
    | some c =>
      rw [hg] at h
      dsimp only at h
      injection h with h1 h2
      exact ⟨c, rfl, h2.symm⟩
  · rw [if_neg hlt] at h
    injection h with h1 h2
    cases h1

theorem child_eid_ne_root {root par c : Element} {p : List Nat} {k : Nat}
    (hn : (idsOf root).Nodup) (hp : subAt root p = some par)
    (hc : (Element.children par).get? k = some c) : c.eid ≠ root.eid := by
  intro he
  have hcp : subAt root (p ++ [k]) = some c := by
    rw [subAt_append, hp]
    simpa using hc
  have hinj := subAt_inj (p ++ [k]) root [] c root hn hcp (by simp [subAt]) he
  simpa using hinj.1

theorem find_parent {root par c : Element} {p : List Nat} {k : Nat}
    (hn : (idsOf root).Nodup) (hp : subAt root p = some par)
    (hc : (Element.children par).get? k = some c) :
    (preorder root).find?
        (fun q => (Element.children q).any (fun d => d.eid == c.eid)) =
      some par := by
  have hcm : c ∈ par.children := List.get?_mem hc
  have hpred :
      ((Element.children par).any (fun d => d.eid == c.eid)) = true := by
    simp only [List.any_eq_true, beq_iff_eq]
    exact ⟨c, hcm, rfl⟩
  have hparmem : par ∈ preorder root := subAt_mem p root par hp
  cases hfind : (preorder root).find?
      (fun q => (Element.children q).any (fun d => d.eid == c.eid)) with
  | none =>
    exact absurd hpred (List.find?_eq_none.1 hfind par hparmem)
  | some q =>
    have hqmem : q ∈ preorder root := List.mem_of_find?_eq_some hfind
    have hqpred := List.find?_some hfind
    simp only [List.any_eq_true, beq_iff_eq] at hqpred
    obtain ⟨d, hd, hde⟩ := hqpred
    obtain ⟨pq, hpq⟩ := mem_subAt root q hqmem
    obtain ⟨m, hm⟩ := List.get?_of_mem hd
    have hdq : subAt root (pq ++ [m]) = some d := by
      rw [subAt_append, hpq]
      simpa using hm
    have hcq : subAt root (p ++ [k]) = some c := by
      rw [subAt_append, hp]
      simpa using hc
    obtain ⟨hpp, hdc⟩ := subAt_inj (pq ++ [m]) root (p ++ [k]) d c hn hdq hcq hde
    have hpq2 : pq = p := (List.append_inj' hpp rfl).1
    rw [hpq2, hp] at hpq
    injection hpq with hq
    rw [hq]

theorem goToParent_restores {st : ParserState} {par c : Element} {p : List Nat}
    {k : Nat} (hn : (idsOf st.root).Nodup)
    (hp : subAt st.root p = some par)
    (hc : (Element.children par).get? k = some c)
    (hcur : st.current = c) :
    goToParent st =
      (none, { st with current := par, path := st.path.dropLast }) := by
  unfold goToParent
  rw [hcur]
  have hne : c.eid ≠ st.root.eid := child_eid_ne_root hn hp hc
  rw [if_neg (by simpa using hne)]
  rw [find_parent hn hp hc]

/-- C6: for every well-formed converter state and every spec and occurrence
for which `go_to_child` succeeds, an immediate `go_to_parent` also succeeds
and restores both the `get_current_info` snapshot and the
`get_current_path` string to their values before the `go_to_child` call. -/
theorem c6_navigation_round_trip (st st' : ParserState) (spec : String)
    (occ : Int) (hwf : WF st) (h : goToChild st spec occ = (none, st')) :
    ∃ st2, goToParent st' = (none, st2) ∧
      getCurrentInfo st2 = getCurrentInfo st ∧
      getCurrentPath st2 = getCurrentPath st := by
  obtain ⟨hn, p, hp⟩ := hwf
  obtain ⟨c, hg, hst⟩ := goToChild_ok h
  have hcmem : c ∈ st.current.children :=
    childMatches_subset st spec c (pyGet_mem hg)
  obtain ⟨k, hk⟩ := List.get?_of_mem hcmem
  have hroot : st'.root = st.root := by rw [hst]
  have hcur : st'.current = c := by rw [hst]
  have hpath : st'.path = st.path ++ [spec] := by rw [hst]
  have hn' : (idsOf st'.root).Nodup := by rw [hroot]; exact hn
  have hp' : subAt st'.root p = some st.current := by rw [hroot]; exact hp
  have hgp := goToParent_restores hn' hp' hk hcur
  refine ⟨_, hgp, rfl, ?_⟩
  simp [getCurrentPath, hpath]

/-- C8: on a well-formed state, `go_to_parent` raises exactly when the
cursor is at the root, and a raising `go_to_parent` or `go_to_child` call
leaves the whole state (cursor element, path stack, data) unchanged. -/
theorem c8_navigation_error_behavior (st : ParserState) (hwf : WF st) :
    ((goToParent st).1 ≠ none ↔ st.current = st.root) ∧
    ((goToParent st).1 ≠ none → (goToParent st).2 = st) ∧
    (∀ spec occ, (goToChild st spec occ).1 ≠ none →
      (goToChild st spec occ).2 = st) := by
  obtain ⟨hn, p, hp⟩ := hwf
  refine ⟨⟨?_, ?_⟩, ?_, ?_⟩
  · intro herr
    unfold goToParent at herr
    by_cases hb : (st.current.eid == st.root.eid) = true
    · have heq : st.current.eid = st.root.eid := by simpa using hb
      have hinj := subAt_inj p st.root [] st.current st.root hn hp
        (by simp [subAt]) heq
      exact hinj.2
    · exfalso
      rw [if_neg hb] at herr
      cases hf : (preorder st.root).find?
          (fun q => (Element.children q).any
            (fun d => d.eid == st.current.eid)) with
      | none => rw [hf] at herr; simp at herr
      | some q => rw [hf] at herr; simp at herr
  · intro hroot
    unfold goToParent
    rw [if_pos (by simp [hroot])]
    simp
  · intro herr
    unfold goToParent at herr ⊢
    by_cases hb : (st.current.eid == st.root.eid) = true
    · rw [if_pos hb]
    · exfalso
      rw [if_neg hb] at herr
      cases hf : (preorder st.root).find?
          (fun q => (Element.children q).any
            (fun d => d.eid == st.current.eid)) with
      | none => rw [hf] at herr; simp at herr
      | some q => rw [hf] at herr; simp at herr
  · intro spec occ herr
    unfold goToChild at herr ⊢
    by_cases hlt : occ < ((childMatches st spec).length : Int)
    · rw [if_pos hlt] at herr ⊢
      cases hg : pyGet (childMatches st spec) occ with
      | none => rfl
      | some c => rw [hg] at herr; simp at herr
    · rw [if_neg hlt]

/-- The ATTRIBUTES element used as a concrete strategy-dispatch input. -/
def attrElem : Element :=
  .mk 11 "ATTRIBUTES" none none [.mk 12 "P" (some "k") (some "v") []]

/-- C5: for every element whose tag has a registered strategy,
`recursive_parse` returns exactly that strategy's result, so the default
fold logic is never executed for such elements; since every recursive call
goes through `recursive_parse`, this holds at any depth. -/
theorem c5_strategy_precedence (strats : Strategies) (stg : Strategy)
    (e : Element) (h : strats e.tag = some stg) :
    recursiveParse strats e = .ok (stg e) := by
  cases e with
  | mk i t nm x cs =>
    have ht : strats t = some stg := h
    simp only [recursiveParse]
    rw [ht]

/-- Witness for C5 at the ATTRIBUTES element of `main.py`'s registry. -/
theorem c5_witness :
    attrStrats (Element.tag attrElem) = some attributeParsingStrategy ∧
    recursiveParse attrStrats attrElem =
      .ok (attributeParsingStrategy attrElem) :=
  ⟨rfl, c5_strategy_precedence attrStrats attributeParsingStrategy attrElem rfl⟩

/-- C4: every element with zero children and no strategy for its tag falls
into the no-collision mapping branch and folds to `{selfKey: {}}` — an
empty inner mapping, not the element's text. -/
theorem c4_leaf_default_fold (strats : Strategies) (i : Nat) (t : String)
    (nm tx : Option String) (h : strats t = none) :
    recursiveParse strats (.mk i t nm tx []) =
      .ok (.vdict [(Key.kstr (nm.getD t), .vdict [])]) := by
  simp only [recursiveParse]
  rw [h]
  rfl

/-- Witness for C4 at the leaf `<ITEM NAME="a">1</ITEM>`. -/
theorem c4_witness :
    emptyStrats "ITEM" = none ∧
    recursiveParse emptyStrats (.mk 1 "ITEM" (some "a") (some "1") []) =
      .ok (.vdict [(Key.kstr "a", .vdict [])]) :=
  ⟨rfl, c4_leaf_default_fold emptyStrats 1 "ITEM" (some "a") (some "1") rfl⟩

/-- C1: for every element with no registered strategy whose fold succeeds,
the default fold returns a single-key record keyed by NAME-else-tag; the
inner value is the mapping assembled from each child's single fold pair
when the child tags are all distinct, and the list of `{name, data}`
records (one per child, document order, length = child count) when a tag
repeats. -/
theorem c1_default_fold_shape (strats : Strategies) (e : Element) (v : Value)
    (hs : strats e.tag = none) (hv : recursiveParse strats e = .ok v) :
    ∃ pairs,
      parseChildren strats e.children = .ok pairs ∧
      pairs.length = e.children.length ∧
      (∀ k c, e.children.get? k = some c →
        ∃ cv, recursiveParse strats c = .ok cv ∧ firstItem cv = pairs.get? k) ∧
      ((e.children.map Element.tag).Nodup →
        v = .vdict [(Key.kstr (e.name.getD e.tag), .vdict (mkDict pairs))]) ∧
      (¬ (e.children.map Element.tag).Nodup →
        v = .vdict [(Key.kstr (e.name.getD e.tag),
          .vlist (pairs.map mkNameData))]) := by
  cases e with
  | mk i t nm x cs =>
    have hs' : strats t = none := hs
    simp only [recursiveParse] at hv
    rw [hs'] at hv
    dsimp only at hv
    cases hpc : parseChildren strats cs with
    | error msg => rw [hpc] at hv; cases hv
    | ok pairs =>
      rw [hpc] at hv
      dsimp only at hv
      obtain ⟨hlen, hidx⟩ := parseChildren_ok strats cs pairs hpc
      refine ⟨pairs, hpc, hlen, hidx, ?_, ?_⟩
      · intro hnd
        have hnd' : (cs.map Element.tag).Nodup := hnd
        rw [(hasCollision_eq_false_iff (cs.map Element.tag)).2 hnd'] at hv
        simp only [Bool.false_eq_true, if_false] at hv
        injection hv with hv2
        exact hv2.symm
      · intro hnd
        have hnd' : ¬ (cs.map Element.tag).Nodup := hnd
        have hcol : hasCollision (cs.map Element.tag) = true := by
          cases hb : hasCollision (cs.map Element.tag) with
          | false => exact absurd ((hasCollision_eq_false_iff _).1 hb) hnd'
          | true => rfl
        rw [hcol] at hv
        simp only [if_true] at hv
        injection hv with hv2
        exact hv2.symm

/-- Witness for C1 at the no-collision scenario document. -/
theorem c1_witness :
    emptyStrats (Element.tag doc2) = none ∧
    recursiveParse emptyStrats doc2 =
      .ok (.vdict [(.kstr "ROOT",
        .vdict [(.kstr "p", .vdict []), (.kstr "q", .vdict [])])]) ∧
    ∃ pairs,
      parseChildren emptyStrats (Element.children doc2) = .ok pairs ∧
      pairs.length = (Element.children doc2).length ∧
      (∀ k c, (Element.children doc2).get? k = some c →
        ∃ cv, recursiveParse emptyStrats c = .ok cv ∧
          firstItem cv = pairs.get? k) ∧
      (((Element.children doc2).map Element.tag).Nodup →
        (Value.vdict [(.kstr "ROOT",
            .vdict [(.kstr "p", .vdict []), (.kstr "q", .vdict [])])]) =
          .vdict [(Key.kstr ((Element.name doc2).getD (Element.tag doc2)),
            .vdict (mkDict pairs))]) ∧
      (¬ ((Element.children doc2).map Element.tag).Nodup →
        (Value.vdict [(.kstr "ROOT",
            .vdict [(.kstr "p", .vdict []), (.kstr "q", .vdict [])])]) =
          .vdict [(Key.kstr ((Element.name doc2).getD (Element.tag doc2)),
            .vlist (pairs.map mkNameData))]) :=
  ⟨rfl, rfl, c1_default_fold_shape emptyStrats doc2
    (.vdict [(.kstr "ROOT",
      .vdict [(.kstr "p", .vdict []), (.kstr "q", .vdict [])])]) rfl rfl⟩

theorem singleton_result_bounded (strats : Strategies)
    (h : ∀ t s, strats t = some s → s = attributeParsingStrategy) :
    ∀ (n : Nat) (e : Element), sizeOf e ≤ n →
      ∃ k w, recursiveParse strats e = .ok (.vdict [(k, w)]) := by
  intro n
  induction n with
  | zero =>
    intro e hr
    cases e with
    | mk i t nm x cs => simp only [Element.mk.sizeOf_spec] at hr; omega
  | succ n ih =>
    intro e hr
    cases e with
    | mk i t nm x cs =>
      cases hst : strats t with
      | some stg =>
        have hstg := h t stg hst
        subst hstg
        refine ⟨Key.kstr t, .vdict (cs.foldl
          (fun acc c => dictInsert acc (keyOfOpt c.name) (textValue c.text))
          []), ?_⟩
        simp only [recursiveParse]
        rw [hst]
        rfl
      | none =>
        have hcs : ∀ c ∈ cs,
            ∃ k w, recursiveParse strats c = .ok (.vdict [(k, w)]) := by
          intro c hc
          have hlt : sizeOf c < sizeOf (Element.mk i t nm x cs) := by
            have := List.sizeOf_lt_of_mem hc
            simp only [Element.mk.sizeOf_spec]
            omega
          simp only [Element.mk.sizeOf_spec] at hr hlt
          exact ih c (by omega)
        obtain ⟨pairs, hpc⟩ := parseChildren_total strats cs hcs
        by_cases hcol : hasCollision (cs.map Element.tag) = true
        · refine ⟨Key.kstr (nm.getD t), .vlist (pairs.map mkNameData), ?_⟩
          simp only [recursiveParse]
          rw [hst, hpc]
          dsimp only
          rw [if_pos hcol]
        · have hcol2 : hasCollision (cs.map Element.tag) = false := by
            cases hb : hasCollision (cs.map Element.tag) with
            | true => exact absurd hb hcol
            | false => rfl
          refine ⟨Key.kstr (nm.getD t), .vdict (mkDict pairs), ?_⟩
          simp only [recursiveParse]
          rw [hst, hpc]
          dsimp only
          rw [if_neg (by simp [hcol2])]

/-- C10: when every registered strategy is the attribute strategy,
`recursive_parse` always succeeds with a one-key record, so the first-item
extraction `list(child_info.items())[0]` in both default-fold branches is
always well-defined. -/
theorem c10_singleton_fold (strats : Strategies)
    (h : ∀ t s, strats t = some s → s = attributeParsingStrategy)
    (e : Element) :
    ∃ k w, recursiveParse strats e = .ok (.vdict [(k, w)]) :=
  singleton_result_bounded strats h (sizeOf e) e le_rfl

/-- Witness for C10 with the registry of `main.py` on a mixed document. -/
theorem c10_witness :
    (∀ t s, attrStrats t = some s → s = attributeParsingStrategy) ∧
    ∃ k w, recursiveParse attrStrats mixedDoc = .ok (.vdict [(k, w)]) := by
  have hh : ∀ t s, attrStrats t = some s → s = attributeParsingStrategy := by
    intro t s hts
    unfold attrStrats at hts
    by_cases ht : (t == "ATTRIBUTES") = true
    · rw [if_pos ht] at hts
      injection hts with h2
      exact h2.symm
    · rw [if_neg ht] at hts
      cases hts
  exact ⟨hh, c10_singleton_fold attrStrats hh mixedDoc⟩

/-- C2 counterexample: on the colliding-tags scenario document with no
strategies, `parse` does not return the claimed value with `data: "1"` and
`data: "2"` — the leaf children fold to `{NAME: {}}`, so `data` is an empty
mapping. -/
theorem c2_counterexample :
    parse emptyStrats doc1 ≠
      .ok (.vdict [(.kstr "ROOT", .vlist
        [.vdict [(.kstr "name", .vstr "a"), (.kstr "data", .vstr "1")],
         .vdict [(.kstr "name", .vstr "b"), (.kstr "data", .vstr "2")]])]) := by
  intro h
  have hx : parse emptyStrats doc1 =
      .ok (.vdict [(.kstr "ROOT", .vlist
        [.vdict [(.kstr "name", .vstr "a"), (.kstr "data", .vdict [])],
         .vdict [(.kstr "name", .vstr "b"), (.kstr "data", .vdict [])]])]) := rfl
  rw [hx] at h
  simp at h

/-- C2 amended: the scenario yields the list shape with the child names in
document order, but each record's `data` is the empty mapping produced by
the leaf fold, not the leaf's text. -/
theorem c2_amended :
    parse emptyStrats doc1 =
      .ok (.vdict [(.kstr "ROOT", .vlist
        [.vdict [(.kstr "name", .vstr "a"), (.kstr "data", .vdict [])],
         .vdict [(.kstr "name", .vstr "b"), (.kstr "data", .vdict [])]])]) :=
  rfl

/-- C3 counterexample: on the distinct-tags scenario document with no
strategies, `parse` does not surface the leaves' text — the claimed value
`{"ROOT": {"p": "1", "q": "2"}}` is not returned. -/
theorem c3_counterexample :
    parse emptyStrats doc2 ≠
      .ok (.vdict [(.kstr "ROOT",
        .vdict [(.kstr "p", .vstr "1"), (.kstr "q", .vstr "2")])]) := by
  intro h
  have hx : parse emptyStrats doc2 =
      .ok (.vdict [(.kstr "ROOT",
        .vdict [(.kstr "p", .vdict []), (.kstr "q", .vdict [])])]) := rfl
  rw [hx] at h
  simp at h

/-- C3 amended: folding a leaf under the default path yields `{selfKey: {}}`
(its text is never surfaced), and the scenario therefore returns
`{"ROOT": {"p": {}, "q": {}}}`. -/
theorem c3_amended :
    (∀ (i : Nat) (t : String) (nm tx : Option String),
      recursiveParse emptyStrats (.mk i t nm tx []) =
        .ok (.vdict [(Key.kstr (nm.getD t), .vdict [])])) ∧
    parse emptyStrats doc2 =
      .ok (.vdict [(.kstr "ROOT",
        .vdict [(.kstr "p", .vdict []), (.kstr "q", .vdict [])])]) :=
  ⟨fun _ _ _ _ => rfl, rfl⟩

/-- C7 counterexample: `add_to_data("/ROOT/ITEM[a]")` fails on the scenario
document — splitting on slashes drops only the empty segment before the
first slash, so `ROOT` is looked up among the root's children and is not
found; nothing is stored. -/
theorem c7_counterexample :
    (addToData (initState doc1) "/ROOT/ITEM[a]" none).1 =
      some "Element not found in path." ∧
    (addToData (initState doc1) "/ROOT/ITEM[a]" none).2 = initState doc1 :=
  ⟨rfl, rfl⟩

/-- C7 amended: with the path written without a leading slash, so that the
dropped first segment is the root's own name, `add_to_data("ROOT/ITEM[a]")`
succeeds and stores `data["a"] = "1"`. -/
theorem c7_amended :
    addToData (initState doc1) "ROOT/ITEM[a]" none =
      (none, { initState doc1 with data := [(Key.kstr "a", Value.vstr "1")] }) :=
  rfl

/-- C9 counterexample: occurrence `-1` is outside the 0-indexed range of the
two matches, yet `go_to_child` does not raise — Python's negative indexing
selects the last match. -/
theorem c9_counterexample :
    (-1 : Int) < 0 ∧
    (goToChild (initState doc1) "ITEM" (-1)).1 = none ∧
    (goToChild (initState doc1) "ITEM" (-1)).2.current = itemB :=
  ⟨by decide, rfl, rfl⟩

/-- C9 amended: for nonnegative occurrences, `go_to_child` raises exactly
when the occurrence is at least the number of matches; otherwise it moves
the cursor to the occurrence-th match and appends the spec to the path
stack. (Negative occurrences index from the end instead of raising.) -/
theorem c9_gotochild_range (st : ParserState) (spec : String) (occ : Int)
    (h : 0 ≤ occ) :
    ((goToChild st spec occ).1 ≠ none ↔
      ((childMatches st spec).length : Int) ≤ occ) ∧
    (∀ c, (childMatches st spec).get? occ.toNat = some c →
      goToChild st spec occ =
        (none, { st with current := c, path := st.path ++ [spec] })) := by
  constructor
  · unfold goToChild
    by_cases hlt : occ < ((childMatches st spec).length : Int)
    · rw [if_pos hlt]
      cases hg : (childMatches st spec).get? occ.toNat with
      | none =>
        exfalso
        rw [List.get?_eq_none] at hg
        omega
      | some c =>
        have hpg : pyGet (childMatches st spec) occ = some c := by
          unfold pyGet
          rw [if_pos h]
          exact hg
        rw [hpg]
        simp
        omega
    · rw [if_neg hlt]
      simp
      omega
  · intro c hc
    have hlt : occ.toNat < (childMatches st spec).length :=
      (List.get?_eq_some.1 hc).1
    have hlt2 : occ < ((childMatches st spec).length : Int) := by omega
    unfold goToChild
    rw [if_pos hlt2]
    have hpg : pyGet (childMatches st spec) occ = some c := by
      unfold pyGet
      rw [if_pos h]
      exact hc
    rw [hpg]

/-- Witness for the amended C9 at an out-of-range nonnegative occurrence. -/
theorem c9_witness :
    (0 : Int) ≤ 5 ∧
    (((goToChild (initState doc1) "ITEM" 5).1 ≠ none ↔
        ((childMatches (initState doc1) "ITEM").length : Int) ≤ 5) ∧
     (∀ c, (childMatches (initState doc1) "ITEM").get? (5 : Int).toNat =
          some c →
        goToChild (initState doc1) "ITEM" 5 =
          (none, { initState doc1 with current := c, path := (initState doc1).path ++ ["ITEM"] }))) :=
  ⟨by decide, c9_gotochild_range (initState doc1) "ITEM" 5 (by decide)⟩

/-- Witness for C6 at the bracketed-spec navigation scenario. -/
theorem c6_witness :
    WF (initState doc1) ∧
    goToChild (initState doc1) "ITEM[a]" 0 =
      (none, { root := doc1, current := itemA, path := ["ROOT", "ITEM[a]"], data := [] }) ∧
    ∃ st2,
      goToParent { root := doc1, current := itemA, path := ["ROOT", "ITEM[a]"], data := [] } = (none, st2) ∧
      getCurrentInfo st2 = getCurrentInfo (initState doc1) ∧
      getCurrentPath st2 = getCurrentPath (initState doc1) :=
  ⟨⟨by decide, ⟨[], rfl⟩⟩, rfl,
   c6_navigation_round_trip (initState doc1)
     { root := doc1, current := itemA, path := ["ROOT", "ITEM[a]"], data := [] }
     "ITEM[a]" 0 ⟨by decide, ⟨[], rfl⟩⟩ rfl⟩

/-- Witness for C8 at the scenario document's initial state. -/
theorem c8_witness :
    WF (initState doc1) ∧
    (((goToParent (initState doc1)).1 ≠ none ↔
        (initState doc1).current = (initState doc1).root) ∧
     ((goToParent (initState doc1)).1 ≠ none →
        (goToParent (initState doc1)).2 = initState doc1) ∧
     (∀ spec occ, (goToChild (initState doc1) spec occ).1 ≠ none →
        (goToChild (initState doc1) spec occ).2 = initState doc1)) :=
  ⟨⟨by decide, ⟨[], rfl⟩⟩,
   c8_navigation_error_behavior (initState doc1) ⟨by decide, ⟨[], rfl⟩⟩⟩
